import Mathlib

/-!
Verification development for the ANTON SchILD-NRW tool
(`modules/converter.py` and `modules/pdf_generator.py`).

The Python code is shallowly embedded: Python strings become `String`
(lists of Unicode scalar values), the Python dict that is only read back
through `.get` becomes a function into `Option`, floating-point page
metrics become exact rationals (`ℚ`), and the ReportLab flowables that a
story collects become an inductive type.  The font-metric oracle
`pdfmetrics.stringWidth` is an external library call and is therefore a
parameter of the embedding, as are the logo geometry and the settings
values the generator reads.

Python's `str` character predicates and case mapping are modelled on the
Basic Latin + Latin-1 range, which covers every character the tool's
class codes, names and references use.
-/

namespace AntonSpec

/-! ## Character-level primitives (Python `str` methods) -/

/-- The characters Python `str.strip()` removes (Unicode whitespace as
Python classifies it). -/
def pyIsSpace (c : Char) : Bool :=
  c.toNat = 9 || c.toNat = 10 || c.toNat = 11 || c.toNat = 12 || c.toNat = 13 ||
  c.toNat = 28 || c.toNat = 29 || c.toNat = 30 || c.toNat = 31 || c.toNat = 32 ||
  c.toNat = 133 || c.toNat = 160 || c.toNat = 5760 ||
  (8192 ≤ c.toNat && c.toNat ≤ 8202) || c.toNat = 8232 || c.toNat = 8233 ||
  c.toNat = 8239 || c.toNat = 8287 || c.toNat = 12288

/-- Python `str.isdigit` restricted to the ASCII decimal digits that can
occur in class codes. -/
def pyIsDigit (c : Char) : Bool := 48 ≤ c.toNat && c.toNat ≤ 57

/-- Python `str.isalpha` on the Basic Latin and Latin-1 Supplement blocks
(ASCII letters, `ª µ º`, and the accented Latin-1 letters; `×` and `÷`
are excluded, exactly as in the Unicode database). -/
def pyIsAlpha (c : Char) : Bool :=
  (65 ≤ c.toNat && c.toNat ≤ 90) || (97 ≤ c.toNat && c.toNat ≤ 122) ||
  c.toNat = 170 || c.toNat = 181 || c.toNat = 186 ||
  (192 ≤ c.toNat && c.toNat ≤ 214) || (216 ≤ c.toNat && c.toNat ≤ 246) ||
  (248 ≤ c.toNat && c.toNat ≤ 255)

/-- Python `str.lower` on one character of the Basic Latin / Latin-1
blocks: `A`–`Z` and `À`–`Þ` (except `×`) shift by 32, everything else is
unchanged. -/
def pyToLower (c : Char) : Char :=
  if 65 ≤ c.toNat ∧ c.toNat ≤ 90 then Char.ofNat (c.toNat + 32)
  else if 192 ≤ c.toNat ∧ c.toNat ≤ 222 ∧ c.toNat ≠ 215 then Char.ofNat (c.toNat + 32)
  else c

/-! ## String-level primitives -/

/-- Python `str.replace(" ", "")`: remove every space character (only U+0020,
exactly what the Python call replaces). -/
def removeSpaces (l : List Char) : List Char := l.filter (fun c => c ≠ ' ')

/-- Python `str.strip()`: drop leading whitespace, then trailing whitespace. -/
def pyStripL (l : List Char) : List Char :=
  (((l.dropWhile pyIsSpace).reverse).dropWhile pyIsSpace).reverse

/-- Python `str.strip()` on a `String`. -/
def pyStrip (s : String) : String := ⟨pyStripL s.data⟩

/-- Python `str.lower()` on a `String`. -/
def pyLower (s : String) : String := ⟨s.data.map pyToLower⟩

/-- Python `str.split(sep)` for a one-character separator, Python semantics:
`"".split("-") = [""]`, empty runs between separators are kept. -/
def pySplitL (sep : Char) : List Char → List (List Char)
  | [] => [[]]
  | c :: t =>
    if c = sep then [] :: pySplitL sep t
    else
      match pySplitL sep t with
      | h :: r => (c :: h) :: r
      | [] => [[c]]

/-- Python `str.split(sep)` on a `String`. -/
def pySplit (sep : Char) (s : String) : List String :=
  (pySplitL sep s.data).map (fun l => ⟨l⟩)

/-- Python `sep.join(parts)` for a one-character separator. -/
def pyJoin (sep : Char) (parts : List String) : String :=
  ⟨List.intercalate [sep] (parts.map String.data)⟩

/-- Worker for `str.split()` with no argument: split on whitespace runs,
discarding empty tokens; `acc` is the current token, reversed. -/
def splitWsAux : List Char → List Char → List (List Char)
  | [], acc => if acc = [] then [] else [acc.reverse]
  | c :: t, acc =>
    if pyIsSpace c then
      (if acc = [] then splitWsAux t [] else acc.reverse :: splitWsAux t [])
    else splitWsAux t (c :: acc)

/-- Python `str.split()` (no argument) on a `String`. -/
def pySplitWs (s : String) : List String :=
  (splitWsAux s.data []).map (fun l => ⟨l⟩)

/-! ## `modules/converter.py` -/

/-- Strip the input and remove every space character: the first two
normalisation steps of `_norm_klasse`
(`s = str(raw).strip()`, `s = s.replace(" ", "")`). -/
def pyCleanKlasse (l : List Char) : List Char := removeSpaces (pyStripL l)

/-- Third step of `_norm_klasse`: a two-character code `"0" + digit`
collapses to the digit
(`if len(s) == 2 and s[0] == "0" and s[1].isdigit(): s = s[1]`). -/
def collapseZero (s : List Char) : List Char :=
  match s with
  | [c0, c1] => if c0 = '0' ∧ pyIsDigit c1 then [c1] else [c0, c1]
  | _ => s

/-- Fourth step of `_norm_klasse`: lower-case a trailing alphabetic
character of a string of length ≥ 2
(`if len(s) >= 2 and s[-1].isalpha(): return s[:-1] + s[-1].lower()`). -/
def lowerLast (s : List Char) : List Char :=
  match s.getLast? with
  | some c => if 2 ≤ s.length ∧ pyIsAlpha c then s.dropLast ++ [pyToLower c] else s
  | none => s

/-- Source `_norm_klasse` on the character list. -/
def normKlasseL (raw : List Char) : List Char :=
  if raw = [] then [] else lowerLast (collapseZero (pyCleanKlasse raw))

/-- Source `_norm_klasse(raw)` from `modules/converter.py`. -/
def normKlasse (s : String) : String := ⟨normKlasseL s.data⟩

/-- The shape `_norm_klasse`'s cleaning steps establish: no space
character anywhere, and no leading or trailing whitespace. -/
def CleanShape (l : List Char) : Prop :=
  (∀ c ∈ l, c ≠ ' ') ∧
  (∀ c, l.head? = some c → pyIsSpace c = false) ∧
  (∀ c, l.getLast? = some c → pyIsSpace c = false)

/-- One attempted match position of `re.search(r"klasse-([^-\s]+)", gid,
re.IGNORECASE)`: the next seven characters spell `klasse-`
case-insensitively, and the capture group is the maximal non-empty
run of characters that are neither a dash nor whitespace. -/
def klasseTryHere (l : List Char) : Option (List Char) :=
  if (l.take 7).map pyToLower = ('k' :: 'l' :: 'a' :: 's' :: 's' :: 'e' :: '-' :: []) then
    let tok := (l.drop 7).takeWhile (fun c => ¬ (c = '-' ∨ pyIsSpace c = true))
    if tok = [] then none else some tok
  else none

/-- Semantics of `re.search`: leftmost position where the whole pattern matches. -/
def klasseSearch : List Char → Option (List Char)
  | [] => none
  | c :: t =>
    match klasseTryHere (c :: t) with
    | some tok => some tok
    | none => klasseSearch t

/-- Source `_klasse_from_membership_id(group_id)` from `modules/converter.py`. -/
def klasseFromMembershipId (groupId : String) : String :=
  if groupId = "" then ""
  else
    match klasseSearch groupId.data with
    | some tok => ⟨tok⟩
    | none => ""

/-- A `<membership>` element: the group identifier text and the member
identifier texts, as `_get_text_ns` extracts them (missing text = ""). -/
structure Membership where
  groupId : String
  members : List String
deriving DecidableEq, Repr

/-- The class code a membership record contributes
(`_klasse_from_membership_id` then `_norm_klasse`). -/
def classOfMembership (m : Membership) : String :=
  normKlasse (klasseFromMembershipId m.groupId)

/-- One iteration of `_build_membership_class_map`'s outer loop: a
record with empty derived class is skipped (`continue`); otherwise every
non-empty member id is written into the dict, overwriting earlier
entries (`result[person_id] = klasse`). -/
def membershipStep (acc : String → Option String) (m : Membership) :
    String → Option String :=
  let kl := classOfMembership m
  if kl = "" then acc
  else
    m.members.foldl
      (fun a pid =>
        if pid ≠ "" then (fun q => if q = pid then some kl else a q) else a)
      acc

/-- Source `_build_membership_class_map` from `modules/converter.py`: the
person-id → class dict, modelled as a function into `Option`. -/
def buildMembershipClassMap (ms : List Membership) : String → Option String :=
  ms.foldl membershipStep (fun _ => none)

/-- Source `_split_name` from `modules/converter.py`, on the three already
extracted text fields (structured given, structured family, combined
full name `fn`). -/
def splitName (given family full : String) : String × String :=
  if given = "" ∧ family = "" then
    if full ≠ "" then
      let parts := pySplit ' ' full
      if 2 ≤ parts.length then (pyJoin ' ' (parts.drop 1), parts.headD "")
      else (full, "")
    else (given, family)
  else (given, family)

/-- Source `_anrede_from_reference(ref)` from `modules/converter.py`. -/
def anredeFromReference (ref : String) : String :=
  if ref = "" then ""
  else
    match pySplitL '-' (pyStripL ref.data) with
    | _ :: middle :: _ =>
      match middle.getLast? with
      | some c => if c = '3' ∨ c = '4' then (if c = '3' then "Herr" else "Frau") else ""
      | none => ""
    | _ => ""

/-- A `<person>` element as the converter reads it: the extracted text
fields (missing text = "") and the `institutionroletype` attribute
values (a missing attribute is the empty string, as `(... or "")`). -/
structure Person where
  given : String
  family : String
  fn : String
  email : String
  ref : String
  roles : List String
deriving DecidableEq, Repr

/-- Source `_is_student` from `modules/converter.py`. -/
def isStudent (p : Person) : Bool :=
  p.roles.any (fun r => pyLower (pyStrip r) = "student")

/-- Source `_is_teacher_like` from `modules/converter.py`. -/
def isTeacherLike (p : Person) : Bool :=
  p.roles.any (fun r =>
    let t := pyLower (pyStrip r)
    t = "faculty" || t = "extern" || t = "teacher" || t = "staff")
  || (!isStudent p && p.email ≠ "")

/-- One row of the student table (`schueler_rows`). -/
structure StudentRow where
  vorname : String
  nachname : String
  klasse : String
  referenz : String
deriving DecidableEq, Repr

/-- One row of the teacher table (`lehr_rows`). -/
structure TeacherRow where
  anrede : String
  vorname : String
  nachname : String
  referenz : String
deriving DecidableEq, Repr

/-- The teacher row `convert` emits for a teacher-like person
(`anrede = _anrede_from_reference(ref)`, names via `_split_name`). -/
def teacherRowOf (p : Person) : TeacherRow :=
  ⟨anredeFromReference p.ref, (splitName p.given p.family p.fn).1,
    (splitName p.given p.family p.fn).2, p.ref⟩

/-- The per-person classification step of `ANTONConverter.convert`:
extend the two accumulated tables by one `<person>` element.  A student
row is appended only `if vorname or nachname`; a teacher row is appended
unconditionally. -/
def convertStep (lookup : String → Option String)
    (acc : List StudentRow × List TeacherRow) (p : Person) :
    List StudentRow × List TeacherRow :=
  if isStudent p then
    if (splitName p.given p.family p.fn).1 ≠ "" ∨ (splitName p.given p.family p.fn).2 ≠ "" then
      (acc.1 ++ [⟨(splitName p.given p.family p.fn).1, (splitName p.given p.family p.fn).2,
        (lookup p.ref).getD "", p.ref⟩], acc.2)
    else acc
  else if isTeacherLike p then
    (acc.1, acc.2 ++ [teacherRowOf p])
  else acc

/-- The extraction loop of `ANTONConverter.convert`: from the membership
records and the person records (in source order), the two tables. -/
def convertRows (ms : List Membership) (ps : List Person) :
    List StudentRow × List TeacherRow :=
  ps.foldl (convertStep (buildMembershipClassMap ms)) ([], [])

/-! ## `modules/pdf_generator.py` -/

/-- One row dict produced by `PDFGenerator._read_anton_csv`. -/
structure AntonRow where
  anrede : String
  vorname : String
  nachname : String
  klasse : String
  referenz : String
  code : String
deriving DecidableEq, Repr

/-- Source `hdr_norm`: the header tokens, stripped and lower-cased. -/
def hdrNorm (header : List String) : List String :=
  header.map (fun h => pyLower (pyStrip h))

/-- The local helper `idx(name)`: position of the (lower-cased) name in
`hdr_norm`, `-1` when absent. -/
def idxOf (header : List String) (name : String) : Int :=
  match (hdrNorm header).indexOf? (pyLower name) with
  | some i => (i : Int)
  | none => -1

/-- Source `i_c`: the login-code column, trying the synonym headers in the
fixed order and keeping the first hit. -/
def iCode (header : List String) : Int :=
  match ["anmelde-code", "login-code", "logincode", "login_code"].find?
      (fun n => idxOf header n ≠ -1) with
  | some n => idxOf header n
  | none => -1

/-- Source `assume`: positional-fallback mode, active exactly when
`min([x for x in (i_v, i_n, i_k, i_r) if x != -1] or [-1]) == -1`. -/
def assumeFlag (header : List String) : Bool :=
  let xs := [idxOf header "vorname", idxOf header "nachname",
             idxOf header "klasse", idxOf header "referenz"].filter (fun x => x ≠ -1)
  (match xs with
   | [] => (-1 : Int)
   | y :: t => t.foldl min y) = -1

/-- Source `(row[i] if i != -1 and len(row) > i else "").strip()`. -/
def getCol (row : List String) (i : Int) : String :=
  if i ≠ -1 ∧ 0 ≤ i ∧ i.toNat < row.length then pyStrip (row.getD i.toNat "") else ""

/-- Source `(row[k] if len(row) > k else "").strip()` for the positional branch. -/
def positional (row : List String) (k : Nat) : String :=
  if k < row.length then pyStrip (row.getD k "") else ""

/-- The `assume` (positional fallback) branch of the data-row loop:
columns 0–4 are read positionally, the salutation is `""`. -/
def rowRecordPositional (row : List String) : AntonRow :=
  ⟨"", positional row 0, positional row 1, positional row 2,
    positional row 3, positional row 4⟩

/-- The name-bound branch of the data-row loop: each field from its
header-bound column, then the secondary fallback
(`# Fallback auf erste Spalten, falls Inhalte leer waren`) replaces an
empty given/family value by column 0 / column 1. -/
def rowRecordNamed (header : List String) (row : List String) : AntonRow :=
  ⟨getCol row (idxOf header "anrede"),
    (if getCol row (idxOf header "vorname") = "" ∧ 0 < row.length
     then pyStrip (row.getD 0 "") else getCol row (idxOf header "vorname")),
    (if getCol row (idxOf header "nachname") = "" ∧ 1 < row.length
     then pyStrip (row.getD 1 "") else getCol row (idxOf header "nachname")),
    getCol row (idxOf header "klasse"),
    getCol row (idxOf header "referenz"),
    getCol row (iCode header)⟩

/-- The per-data-row body of `_read_anton_csv`: `none` when the row is
skipped (`if not row: continue` / `if not (v or n): continue`),
otherwise the dict appended to `rows`. -/
def rowRecord (header : List String) (row : List String) : Option AntonRow :=
  if row = [] then none
  else
    let rcd : AntonRow :=
      if assumeFlag header then rowRecordPositional row else rowRecordNamed header row
    if rcd.vorname ≠ "" ∨ rcd.nachname ≠ "" then some rcd else none

/-- The data-row loop of `_read_anton_csv`, after the csv module has
already yielded the header and the data rows as string lists. -/
def readAntonRows (header : List String) (rows : List (List String)) : List AntonRow :=
  rows.filterMap (rowRecord header)

/-- The unit `reportlab.lib.units.mm` = 72 / 25.4 points, exact. -/
def mmQ : ℚ := 360 / 127

/-- The fixed descending candidate font sizes of `code_font_that_fits`. -/
def candidateSizes : List ℕ := [28, 26, 24, 22, 20, 18, 16, 14, 12, 10, 9, 8]

/-- The measured block width at candidate size `fs`:
`max(stringWidth(code, font, fs), stringWidth(line1, font, 8),
stringWidth(line2, font, 8)) + 2 * pad` with `pad = 6`;
`w` is the `pdfmetrics.stringWidth` oracle for the registered font. -/
def fitMeasure (w : String → ℕ → ℚ) (code line1 line2 : String) (fs : ℕ) : ℚ :=
  max (w code fs) (max (w line1 8) (w line2 8)) + 2 * 6

/-- Source `code_font_that_fits` from `PDFGenerator._sticker`: first candidate
of the descending list whose measured width fits, else 8. -/
def codeFontThatFits (w : String → ℕ → ℚ) (avail : ℚ) (code line1 line2 : String) : ℕ :=
  match candidateSizes.find? (fun fs => fitMeasure w code line1 line2 fs ≤ avail) with
  | some fs => fs
  | none => 8

/-- Source `(x or " ")` on strings. -/
def orSpace (s : String) : String := if s = "" then " " else s

/-- Source `(firstname or "").split()[0] if firstname else ""`.  On the
stripped inputs the callers pass, a non-empty string has a first
whitespace-token; `headD ""` totalises the model. -/
def firstGivenOf (s : String) : String :=
  if s ≠ "" then (pySplitWs s).headD "" else ""

/-- One sticker name line: `(x or " ").strip() or " "`. -/
def stickerLine (x : String) : String := orSpace (pyStrip (orSpace x))

/-- The flowables a story collects.  Geometry that the claims never
inspect (image sizes, table paddings) is elided; the sticker keeps the
strings, the fitted code font size and the QR payload it was built
from. -/
inductive Flowable where
  | img : Flowable
  | spacer (w h : ℕ) : Flowable
  | para (markup style : String) : Flowable
  | pageBreak : Flowable
  | divider : Flowable
  | qr (payload : String) (size : ℕ) : Flowable
  | sticker (logoW : ℚ) (line1 line2 code : String) (nameFont codeFont : ℕ)
      (qrPayload : String) (qrSize : ℕ) : Flowable
deriving DecidableEq, Repr

/-- Source `PDFGenerator._sticker`: `logoW` is the logo width computed from the
image aspect ratio (25 mm when the image cannot be read). -/
def stickerOf (w : String → ℕ → ℚ) (logoW : ℚ) (firstname lastname code : String) :
    Flowable :=
  let firstGiven := firstGivenOf firstname
  let line1 := stickerLine firstGiven
  let line2 := stickerLine lastname
  let availableNameCol : ℚ := 100 * mmQ - logoW - 30 * mmQ
  let codeFont := codeFontThatFits w availableNameCol code line1 line2
  let qrPayload := if code ≠ "" then code else firstGiven ++ " " ++ lastname
  Flowable.sticker logoW line1 line2 code 8 codeFont qrPayload 90

/-- The fitted code font size stored in a sticker flowable. -/
def stickerCodeFont : Flowable → ℕ
  | Flowable.sticker _ _ _ _ _ cf _ _ => cf
  | _ => 0

/-- Recognise the explicit page break flowable. -/
def isPageBreak : Flowable → Bool
  | Flowable.pageBreak => true
  | _ => false

/-- The greeting line of `_build_anton_story` (lines 354–370): audience
flag, first given name, full name, then the greeting text. -/
def buildGreet (schoolgroup anrede firstname lastname : String) : String :=
  let group := pyStrip schoolgroup
  let forceTeacher := group = "2"
  let isTeacher := forceTeacher ∨ anrede ≠ ""
  let firstGiven := firstGivenOf firstname
  let fullName := pyStrip (pyStrip (firstGiven ++ " " ++ lastname))
  if isTeacher then "Hallo " ++ fullName ++ ","
  else if anrede ≠ "" then anrede ++ " " ++ fullName ++ ","
  else "Hallo " ++ fullName ++ ","

/-- Source `PDFGenerator._build_anton_story`: the ordered flowable list for one
person.  `w` is the string-width oracle, `logoOk` whether the logo image
could be read, `logoW` the sticker logo width, `schoolgroup` and
`antonlink` the settings values. -/
def buildAntonStory (w : String → ℕ → ℚ) (logoOk : Bool) (logoW : ℚ)
    (schoolgroup antonlink : String) (r : AntonRow) : List Flowable :=
  let anrede := pyStrip r.anrede
  let firstname := pyStrip r.vorname
  let lastname := pyStrip r.nachname
  let code := pyStrip r.code
  let link0 := pyStrip (if antonlink = "" then "https://www.anton.app" else antonlink)
  let antonLink := if link0 = "" then "https://www.anton.app" else link0
  let group := pyStrip schoolgroup
  let isTeacher := group = "2" ∨ anrede ≠ ""
  let greet := buildGreet schoolgroup anrede firstname lastname
  (if logoOk then [Flowable.img] else [])
  ++ [Flowable.spacer 1 12]
  ++ [Flowable.para ("<font size=14>" ++ greet ++ "</font>") "Justify"]
  ++ [Flowable.spacer 1 12]
  ++ [Flowable.para "<font size=14>Willkommen bei ANTON - der Lern-App für die Schule.</font>" "Normal",
      Flowable.spacer 1 12]
  ++ [if isTeacher then
        Flowable.para "<font size=14>Für Sie wurde ein Account angelegt.</font>" "Normal"
      else Flowable.para "<font size=14>Für dich wurde ein Account angelegt.</font>" "Normal"]
  ++ [Flowable.spacer 1 24]
  ++ [if isTeacher then Flowable.para "<font size=14>Gehen Sie im Browser auf </font>" "Normal"
      else Flowable.para "<font size=14>Gehe im Browser auf </font>" "Normal"]
  ++ [Flowable.spacer 1 12]
  ++ [Flowable.para ("<font size=18>" ++ antonLink ++ "</font>") "Normal"]
  ++ [Flowable.spacer 1 12]
  ++ [if isTeacher then
        Flowable.para "<font size=14>oder laden Sie die kostenlose ANTON-App herunter.</font>" "Normal"
      else Flowable.para "<font size=14>oder lade dir die kostenlose ANTON-App herunter.</font>" "Normal"]
  ++ [Flowable.spacer 1 24]
  ++ (if code ≠ "" then
        [if isTeacher then
           Flowable.para "<font size=14>Sie können sich mit folgendem Code bei ANTON einloggen:</font>" "Normal"
         else Flowable.para "<font size=14>Du kannst dich mit folgendem Code bei ANTON einloggen:</font>" "Normal",
         Flowable.spacer 1 24,
         Flowable.para ("<font size=24>" ++ code ++ "</font>") "Heading1",
         Flowable.spacer 1 24,
         if isTeacher then
           Flowable.para "<font size=14>Oder Sie scannen in der ANTON-App diesen QR-Code:</font>" "Normal"
         else Flowable.para "<font size=14>Oder du scannst in der ANTON-App diesen QR-Code:</font>" "Normal",
         Flowable.spacer 1 12,
         Flowable.qr code 200]
      else [])
  ++ [Flowable.spacer 1 18, Flowable.divider, Flowable.spacer 1 12,
      stickerOf w logoW firstname lastname code]

/-- The grouping key of `PDFGenerator.generate` in one-document mode:
teachers (by explicit setting "2" or a non-empty salutation) without a
class go to the `Lehrkräfte` bucket, anyone else without a class to
`ohne_klasse`. -/
def groupKey (groupSetting : String) (r : AntonRow) : String :=
  let clsRaw := pyStrip r.klasse
  if clsRaw = "" ∧ (groupSetting = "2" ∨ pyStrip r.anrede ≠ "") then "Lehrkräfte"
  else if clsRaw = "" then "ohne_klasse"
  else clsRaw

/-- Source `classes[cls].append(r)` on an insertion-ordered dict, modelled as an
association list in first-occurrence order. -/
def groupInsert (acc : List (String × List AntonRow)) (k : String) (r : AntonRow) :
    List (String × List AntonRow) :=
  match acc with
  | [] => [(k, [r])]
  | (k', rs) :: t => if k' = k then (k', rs ++ [r]) :: t else (k', rs) :: groupInsert t k r

/-- The grouping pass of `PDFGenerator.generate` (one-document mode). -/
def groupRows (groupSetting : String) (rows : List AntonRow) :
    List (String × List AntonRow) :=
  rows.foldl (fun acc r => groupInsert acc (groupKey groupSetting r) r) []

/-- The story of one group document: people's stories in input order,
a `PageBreak` only between consecutive entries (`if idx < len(people)`). -/
def groupStory (w : String → ℕ → ℚ) (logoOk : Bool) (logoW : ℚ)
    (schoolgroup antonlink : String) : List AntonRow → List Flowable
  | [] => []
  | [r] => buildAntonStory w logoOk logoW schoolgroup antonlink r
  | r :: rest =>
    buildAntonStory w logoOk logoW schoolgroup antonlink r ++ [Flowable.pageBreak]
    ++ groupStory w logoOk logoW schoolgroup antonlink rest

/-- One-document mode of `PDFGenerator.generate`: the list of physical
documents, each the pair of its group key and its story.
`group_setting = str(...).strip() or "1"`. -/
def generateGrouped (w : String → ℕ → ℚ) (logoOk : Bool) (logoW : ℚ)
    (schoolgroup antonlink : String) (rows : List AntonRow) :
    List (String × List Flowable) :=
  let gsStripped := pyStrip schoolgroup
  let groupSetting := if gsStripped = "" then "1" else gsStripped
  (groupRows groupSetting rows).map
    (fun g => (g.1, groupStory w logoOk logoW schoolgroup antonlink g.2))

/-- Number of explicit page breaks in a story. -/
def countBreaks (story : List Flowable) : ℕ :=
  story.countP (fun f => isPageBreak f)

/-! ## Character-level lemmas -/

theorem char_toNat_ofNat (n : Nat) (h : n.isValidChar) : (Char.ofNat n).toNat = n := by
  simp only [Char.ofNat, h, dif_pos]
  rfl

theorem pyToLower_toNat_of_shift (c : Char)
    (h : (65 ≤ c.toNat ∧ c.toNat ≤ 90) ∨ (192 ≤ c.toNat ∧ c.toNat ≤ 222 ∧ c.toNat ≠ 215)) :
    (pyToLower c).toNat = c.toNat + 32 := by
  have hv : (c.toNat + 32).isValidChar := by
    constructor
    · show c.toNat + 32 < 55296
      omega
  unfold pyToLower
  rcases h with h | h
  · rw [if_pos h, char_toNat_ofNat _ hv]
  · have h90 : ¬ (65 ≤ c.toNat ∧ c.toNat ≤ 90) := by omega
    rw [if_neg h90, if_pos h, char_toNat_ofNat _ hv]

theorem pyToLower_toNat_of_id (c : Char)
    (h : ¬ ((65 ≤ c.toNat ∧ c.toNat ≤ 90) ∨ (192 ≤ c.toNat ∧ c.toNat ≤ 222 ∧ c.toNat ≠ 215))) :
    pyToLower c = c := by
  unfold pyToLower
  rw [if_neg (fun hc => h (Or.inl hc)), if_neg (fun hc => h (Or.inr hc))]

theorem pyIsAlpha_not_space {c : Char} (h : pyIsAlpha c = true) : pyIsSpace c = false := by
  simp only [pyIsAlpha, Bool.or_eq_true, decide_eq_true_eq, Bool.and_eq_true] at h
  simp only [pyIsSpace, Bool.or_eq_false_iff, Bool.and_eq_false_iff, decide_eq_false_iff_not]
  omega

theorem pyIsDigit_not_space {c : Char} (h : pyIsDigit c = true) : pyIsSpace c = false := by
  simp only [pyIsDigit, Bool.and_eq_true, decide_eq_true_eq] at h
  simp only [pyIsSpace, Bool.or_eq_false_iff, Bool.and_eq_false_iff, decide_eq_false_iff_not]
  omega

theorem pyIsAlpha_not_digit {c : Char} (h : pyIsAlpha c = true) : pyIsDigit c = false := by
  simp only [pyIsAlpha, Bool.or_eq_true, decide_eq_true_eq, Bool.and_eq_true] at h
  simp only [pyIsDigit, Bool.and_eq_true, decide_eq_true_eq, Bool.and_eq_false_iff,
    decide_eq_false_iff_not]
  omega

/-- Lowering an alphabetic Latin-1 character yields an alphabetic
character, is idempotent, and never yields a digit or whitespace. -/
theorem pyToLower_alpha_facts (c : Char) (h : pyIsAlpha c = true) :
    pyIsAlpha (pyToLower c) = true ∧ pyToLower (pyToLower c) = pyToLower c ∧
    pyIsDigit (pyToLower c) = false ∧ pyIsSpace (pyToLower c) = false := by
  by_cases hs : (65 ≤ c.toNat ∧ c.toNat ≤ 90) ∨ (192 ≤ c.toNat ∧ c.toNat ≤ 222 ∧ c.toNat ≠ 215)
  · have ht := pyToLower_toNat_of_shift c hs
    have halpha : pyIsAlpha (pyToLower c) = true := by
      simp only [pyIsAlpha, Bool.or_eq_true, decide_eq_true_eq, Bool.and_eq_true]
      omega
    refine ⟨halpha, ?_, pyIsAlpha_not_digit halpha, pyIsAlpha_not_space halpha⟩
    exact pyToLower_toNat_of_id (pyToLower c) (by omega)
  · rw [pyToLower_toNat_of_id c hs]
    exact ⟨h, pyToLower_toNat_of_id c hs, pyIsAlpha_not_digit h, pyIsAlpha_not_space h⟩

theorem space_not_of_pyIsSpace_false {c : Char} (h : pyIsSpace c = false) : c ≠ ' ' := by
  intro hc
  subst hc
  exact absurd h (by decide)

/-! ## Strip / clean lemmas -/

theorem head?_dropWhile_not (p : Char → Bool) :
    ∀ (l : List Char) (c : Char), (l.dropWhile p).head? = some c → p c = false := by
  intro l
  induction l with
  | nil => intro c h; simp [List.dropWhile] at h
  | cons a t ih =>
    intro c h
    rw [List.dropWhile_cons] at h
    by_cases hpa : p a
    · rw [if_pos hpa] at h
      exact ih c h
    · rw [if_neg hpa] at h
      simp only [List.head?_cons, Option.some.injEq] at h
      subst h
      exact Bool.eq_false_iff.mpr hpa

theorem getLast?_of_suffix {w l : List Char} (h : w <:+ l) (hw : w ≠ []) :
    l.getLast? = w.getLast? := by
  obtain ⟨u, rfl⟩ := h
  rw [List.getLast?_append]
  cases hg : w.getLast? with
  | none =>
    exact absurd (List.getLast?_eq_none_iff.mp hg) hw
  | some x => rfl

theorem pyStripL_edges (l : List Char) :
    (∀ c, (pyStripL l).head? = some c → pyIsSpace c = false) ∧
    (∀ c, (pyStripL l).getLast? = some c → pyIsSpace c = false) := by
  unfold pyStripL
  constructor
  · intro c h
    rw [List.head?_reverse] at h
    set X := ((l.dropWhile pyIsSpace).reverse).dropWhile pyIsSpace with hX
    have hXne : X ≠ [] := by
      intro he
      rw [he] at h
      simp at h
    have hsfx : X <:+ (l.dropWhile pyIsSpace).reverse := List.dropWhile_suffix pyIsSpace
    have h2 : ((l.dropWhile pyIsSpace).reverse).getLast? = X.getLast? :=
      getLast?_of_suffix hsfx hXne
    rw [← h2] at h
    rw [List.getLast?_reverse] at h
    exact head?_dropWhile_not pyIsSpace l c h
  · intro c h
    rw [List.getLast?_reverse] at h
    exact head?_dropWhile_not pyIsSpace _ c h

theorem removeSpaces_nil : removeSpaces [] = [] := rfl

theorem removeSpaces_cons_of_ne (a : Char) (t : List Char) (ha : a ≠ ' ') :
    removeSpaces (a :: t) = a :: removeSpaces t := by
  simp [removeSpaces, List.filter_cons, ha]

theorem removeSpaces_append (u v : List Char) :
    removeSpaces (u ++ v) = removeSpaces u ++ removeSpaces v := by
  simp [removeSpaces, List.filter_append]

theorem ne_space_of_mem_removeSpaces {c : Char} {l : List Char}
    (h : c ∈ removeSpaces l) : c ≠ ' ' :=
  of_decide_eq_true (List.mem_filter.mp h).2

theorem cleanShape_pyCleanKlasse (l : List Char) : CleanShape (pyCleanKlasse l) := by
  obtain ⟨hh, hl⟩ := pyStripL_edges l
  refine ⟨?_, ?_, ?_⟩
  · intro c hc
    exact ne_space_of_mem_removeSpaces hc
  · intro c h
    unfold pyCleanKlasse at h
    cases hy : pyStripL l with
    | nil => rw [hy] at h; simp [removeSpaces] at h
    | cons a t =>
      have ha : pyIsSpace a = false := hh a (by rw [hy]; rfl)
      have ha' : a ≠ ' ' := space_not_of_pyIsSpace_false ha
      rw [hy, removeSpaces_cons_of_ne a t ha'] at h
      simp only [List.head?_cons, Option.some.injEq] at h
      subst h
      exact ha
  · intro c h
    unfold pyCleanKlasse at h
    cases hy : pyStripL l with
    | nil => rw [hy] at h; simp [removeSpaces] at h
    | cons a t =>
      have hne : pyStripL l ≠ [] := by rw [hy]; simp
      have hg : (pyStripL l).getLast? = some ((pyStripL l).getLast hne) :=
        List.getLast?_eq_getLast _ hne
      have hb : pyIsSpace ((pyStripL l).getLast hne) = false := hl _ hg
      have hb' : (pyStripL l).getLast hne ≠ ' ' := space_not_of_pyIsSpace_false hb
      have hsplit := List.dropLast_concat_getLast hne
      have hfl : removeSpaces (pyStripL l) =
          removeSpaces ((pyStripL l).dropLast) ++ [(pyStripL l).getLast hne] := by
        conv_lhs => rw [← hsplit]
        rw [removeSpaces_append, removeSpaces_cons_of_ne _ _ hb', removeSpaces_nil]
      rw [hfl, List.getLast?_concat] at h
      cases h
      exact hb

theorem pyCleanKlasse_fix {l : List Char} (h : CleanShape l) : pyCleanKlasse l = l := by
  obtain ⟨hs, hh, hl⟩ := h
  have hstrip : pyStripL l = l := by
    unfold pyStripL
    have h1 : l.dropWhile pyIsSpace = l := by
      cases l with
      | nil => rfl
      | cons a t =>
        rw [List.dropWhile_cons, if_neg]
        rw [hh a rfl]
        simp
    rw [h1]
    have h2 : l.reverse.dropWhile pyIsSpace = l.reverse := by
      cases hr : l.reverse with
      | nil => rfl
      | cons a t =>
        have hga : l.getLast? = some a := by
          rw [← List.head?_reverse, hr]
          rfl
        rw [List.dropWhile_cons, if_neg]
        rw [hl a hga]
        simp
    rw [h2, List.reverse_reverse]
  unfold pyCleanKlasse removeSpaces
  rw [hstrip]
  exact List.filter_eq_self.mpr (fun a ha => decide_eq_true (hs a ha))

/-! ## `_norm_klasse` step lemmas -/

theorem collapseZero_nil : collapseZero [] = [] := rfl

theorem collapseZero_single (a : Char) : collapseZero [a] = [a] := rfl

theorem collapseZero_pair (a b : Char) :
    collapseZero [a, b] = if a = '0' ∧ pyIsDigit b then [b] else [a, b] := rfl

theorem collapseZero_long (a b c : Char) (rest : List Char) :
    collapseZero (a :: b :: c :: rest) = a :: b :: c :: rest := rfl

theorem collapseZero_idem (t : List Char) :
    collapseZero (collapseZero t) = collapseZero t := by
  match t with
  | [] => rfl
  | [a] => rfl
  | [a, b] =>
    rw [collapseZero_pair]
    by_cases hc : a = '0' ∧ pyIsDigit b = true
    · rw [if_pos hc, collapseZero_single]
    · rw [if_neg hc, collapseZero_pair, if_neg hc]
  | a :: b :: c :: rest =>
    rw [collapseZero_long, collapseZero_long]

theorem lowerLast_concat (u : List Char) (x : Char) :
    lowerLast (u ++ [x]) =
      if 2 ≤ (u ++ [x]).length ∧ pyIsAlpha x then u ++ [pyToLower x] else u ++ [x] := by
  unfold lowerLast
  rw [List.getLast?_concat]
  show (if 2 ≤ (u ++ [x]).length ∧ pyIsAlpha x then (u ++ [x]).dropLast ++ [pyToLower x]
        else u ++ [x]) = _
  by_cases hc : 2 ≤ (u ++ [x]).length ∧ pyIsAlpha x = true
  · rw [if_pos hc, if_pos hc, List.dropLast_concat]
  · rw [if_neg hc, if_neg hc]

theorem lowerLast_of_not_cond (s : List Char)
    (h : ∀ c, s.getLast? = some c → ¬ (2 ≤ s.length ∧ pyIsAlpha c = true)) :
    lowerLast s = s := by
  unfold lowerLast
  cases hg : s.getLast? with
  | none => rfl
  | some c =>
    show (if 2 ≤ s.length ∧ pyIsAlpha c then s.dropLast ++ [pyToLower c] else s) = s
    rw [if_neg (h c hg)]

theorem cleanShape_collapseZero {s : List Char} (h : CleanShape s) :
    CleanShape (collapseZero s) := by
  match s with
  | [] => exact h
  | [a] => exact h
  | [a, b] =>
    rw [collapseZero_pair]
    by_cases hc : a = '0' ∧ pyIsDigit b = true
    · rw [if_pos hc]
      have hb : pyIsSpace b = false := pyIsDigit_not_space hc.2
      refine ⟨?_, ?_, ?_⟩
      · intro c hcmem
        simp only [List.mem_singleton] at hcmem
        subst hcmem
        exact space_not_of_pyIsSpace_false hb
      · intro c hch
        simp only [List.head?_cons, Option.some.injEq] at hch
        subst hch
        exact hb
      · intro c hcl
        simp only [List.getLast?_singleton, Option.some.injEq] at hcl
        subst hcl
        exact hb
    · rw [if_neg hc]
      exact h
  | a :: b :: c :: rest =>
    rw [collapseZero_long]
    exact h

theorem cleanShape_lowerLast {s : List Char} (h : CleanShape s) :
    CleanShape (lowerLast s) := by
  cases hg : s.getLast? with
  | none =>
    unfold lowerLast
    rw [hg]
    exact h
  | some c =>
    unfold lowerLast
    rw [hg]
    show CleanShape (if 2 ≤ s.length ∧ pyIsAlpha c then s.dropLast ++ [pyToLower c] else s)
    by_cases hc : 2 ≤ s.length ∧ pyIsAlpha c = true
    · rw [if_pos hc]
      obtain ⟨halpha, hlow, hdig, hsp⟩ := pyToLower_alpha_facts c hc.2
      refine ⟨?_, ?_, ?_⟩
      · intro x hx
        rcases List.mem_append.mp hx with hx | hx
        · exact h.1 x ((List.dropLast_sublist s).subset hx)
        · simp only [List.mem_singleton] at hx
          subst hx
          exact space_not_of_pyIsSpace_false hsp
      · intro x hx
        rcases s with _ | ⟨a, _ | ⟨b, t'⟩⟩
        · simp at hg
        · simp at hc
        · rw [List.dropLast_cons₂] at hx
          simp only [List.cons_append, List.head?_cons, Option.some.injEq] at hx
          subst hx
          exact h.2.1 _ rfl
      · intro x hx
        rw [List.getLast?_concat] at hx
        cases hx
        exact hsp
    · rw [if_neg hc]
      exact h

theorem collapseZero_concat_of_one_le (u : List Char) (x : Char)
    (h1 : 1 ≤ u.length) (hx : pyIsDigit x = false) :
    collapseZero (u ++ [x]) = u ++ [x] := by
  rcases u with _ | ⟨a, _ | ⟨b, t⟩⟩
  · simp at h1
  · show collapseZero [a, x] = [a, x]
    rw [collapseZero_pair, if_neg]
    intro hcond
    rw [hx] at hcond
    exact absurd hcond.2 (by simp)
  · cases t with
    | nil =>
      simp only [List.cons_append, List.nil_append]
      exact collapseZero_long a b x []
    | cons e es =>
      simp only [List.cons_append]
      exact collapseZero_long a b e (es ++ [x])

/-- Applying the collapse and lower-last steps a second time to their own
output changes nothing. -/
theorem lowerLast_collapseZero_stable (t : List Char) :
    lowerLast (collapseZero (lowerLast (collapseZero t))) = lowerLast (collapseZero t) := by
  suffices hS : ∀ u : List Char, collapseZero u = u →
      lowerLast (collapseZero (lowerLast u)) = lowerLast u by
    exact hS (collapseZero t) (collapseZero_idem t)
  intro u hu
  cases hg : u.getLast? with
  | none =>
    have hu0 : u = [] := List.getLast?_eq_none_iff.mp hg
    subst hu0
    rfl
  | some c =>
    by_cases hc : 2 ≤ u.length ∧ pyIsAlpha c = true
    · have hr : lowerLast u = u.dropLast ++ [pyToLower c] := by
        unfold lowerLast
        rw [hg]
        show (if 2 ≤ u.length ∧ pyIsAlpha c then u.dropLast ++ [pyToLower c] else u) = _
        rw [if_pos hc]
      obtain ⟨halpha, hlow, hdig, hsp⟩ := pyToLower_alpha_facts c hc.2
      have hlen : 1 ≤ u.dropLast.length := by
        rw [List.length_dropLast]
        omega
      have hcz := collapseZero_concat_of_one_le u.dropLast (pyToLower c) hlen hdig
      have hll : lowerLast (u.dropLast ++ [pyToLower c]) = u.dropLast ++ [pyToLower c] := by
        rw [lowerLast_concat]
        have h2 : 2 ≤ (u.dropLast ++ [pyToLower c]).length := by
          rw [List.length_append, List.length_dropLast]
          simp only [List.length_singleton]
          omega
        rw [if_pos ⟨h2, halpha⟩, hlow]
      rw [hr, hcz, hll]
    · have hr : lowerLast u = u :=
        lowerLast_of_not_cond u (fun c' hg' => by rw [hg] at hg'; cases hg'; exact hc)
      rw [hr, hu, hr]

theorem normKlasseL_of_ne (x : List Char) (h : x ≠ []) :
    normKlasseL x = lowerLast (collapseZero (pyCleanKlasse x)) := by
  unfold normKlasseL
  rw [if_neg h]

theorem normKlasseL_idem (raw : List Char) :
    normKlasseL (normKlasseL raw) = normKlasseL raw := by
  by_cases hraw : raw = []
  · subst hraw
    rfl
  · have h1 := normKlasseL_of_ne raw hraw
    by_cases hrnil : normKlasseL raw = []
    · rw [hrnil]
      rfl
    · have hcs : CleanShape (normKlasseL raw) := by
        rw [h1]
        exact cleanShape_lowerLast (cleanShape_collapseZero (cleanShape_pyCleanKlasse raw))
      calc normKlasseL (normKlasseL raw)
          = lowerLast (collapseZero (pyCleanKlasse (normKlasseL raw))) :=
            normKlasseL_of_ne _ hrnil
        _ = lowerLast (collapseZero (normKlasseL raw)) := by rw [pyCleanKlasse_fix hcs]
        _ = lowerLast (collapseZero (lowerLast (collapseZero (pyCleanKlasse raw)))) := by
            rw [h1]
        _ = lowerLast (collapseZero (pyCleanKlasse raw)) :=
            lowerLast_collapseZero_stable (pyCleanKlasse raw)
        _ = normKlasseL raw := h1.symm

theorem lowerLast_single (a : Char) : lowerLast [a] = [a] := by
  unfold lowerLast
  show (if 2 ≤ [a].length ∧ pyIsAlpha a then [a].dropLast ++ [pyToLower a] else [a]) = [a]
  rw [if_neg]
  intro hcond
  simp at hcond

theorem cleanShape_normKlasseL (raw : List Char) : CleanShape (normKlasseL raw) := by
  by_cases h : raw = []
  · subst h
    refine ⟨?_, ?_, ?_⟩ <;> intro c hc <;> simp [normKlasseL] at hc
  · rw [normKlasseL_of_ne raw h]
    exact cleanShape_lowerLast (cleanShape_collapseZero (cleanShape_pyCleanKlasse raw))

/-! ## C7 / C10: class-code normalization -/

/-- Claim C7, counterexample:  The claim says a trailing alphabetic
character is always lower-cased, but `_norm_klasse` lower-cases it only
when the cleaned string has length ≥ 2: on the input `"B"` (trailing
character `'B'`, alphabetic) the code returns `"B"`, not `"b"`. -/
theorem c7_counterexample :
    (("B" : String).data.getLast? = some 'B' ∧ pyIsAlpha 'B' = true) ∧
    normKlasse "B" = "B" ∧ normKlasse "B" ≠ "b" := by
  refine ⟨⟨by decide, by decide⟩, by decide, by decide⟩

/-- Claim C7, amended:  For every input string, after stripping the ends
and removing the space characters: the result of `_norm_klasse` never
contains a space; a cleaned two-character string `"0" + digit` maps to
the bare digit; if the cleaned string has length ≥ 2 and its trailing
character is alphabetic, only that trailing character is lower-cased;
and `"" → ""`, `"07" → "7"`, `"10B" → "10b"`, `"7" → "7"`. -/
theorem c7_amended :
    (∀ s : String, ∀ c ∈ (normKlasse s).data, c ≠ ' ') ∧
    (∀ s : String, ∀ d : Char, pyIsDigit d = true → pyCleanKlasse s.data = ['0', d] →
      normKlasse s = ⟨[d]⟩) ∧
    (∀ s : String, ∀ c : Char, (pyCleanKlasse s.data).getLast? = some c →
      2 ≤ (pyCleanKlasse s.data).length → pyIsAlpha c = true →
      normKlasse s = ⟨(pyCleanKlasse s.data).dropLast ++ [pyToLower c]⟩) ∧
    normKlasse "" = "" ∧ normKlasse "07" = "7" ∧ normKlasse "10B" = "10b" ∧
    normKlasse "7" = "7" := by
  refine ⟨?_, ?_, ?_, by decide, by decide, by decide, by decide⟩
  · intro s c hc
    exact (cleanShape_normKlasseL s.data).1 c hc
  · intro s d hd hclean
    have hne : s.data ≠ [] := by
      intro h0
      rw [h0, show pyCleanKlasse ([] : List Char) = [] from rfl] at hclean
      cases hclean
    show String.mk (normKlasseL s.data) = String.mk [d]
    rw [normKlasseL_of_ne _ hne, hclean, collapseZero_pair, if_pos ⟨rfl, hd⟩,
      lowerLast_single]
  · intro s c hlast hlen halpha
    have hne : s.data ≠ [] := by
      intro h0
      rw [h0] at hlen
      exact absurd hlen (by decide)
    have htne : pyCleanKlasse s.data ≠ [] := by
      intro h0
      rw [h0] at hlast
      cases hlast
    have hgl : (pyCleanKlasse s.data).getLast htne = c := by
      have hx := List.getLast?_eq_getLast (pyCleanKlasse s.data) htne
      rw [hlast] at hx
      cases hx
      rfl
    have ht : pyCleanKlasse s.data = (pyCleanKlasse s.data).dropLast ++ [c] := by
      have hsplit := List.dropLast_concat_getLast htne
      rw [hgl] at hsplit
      exact hsplit.symm
    have hlen1 : 1 ≤ (pyCleanKlasse s.data).dropLast.length := by
      rw [List.length_dropLast]
      omega
    have hcz : collapseZero (pyCleanKlasse s.data) = pyCleanKlasse s.data := by
      calc collapseZero (pyCleanKlasse s.data)
          = collapseZero ((pyCleanKlasse s.data).dropLast ++ [c]) := by rw [← ht]
        _ = (pyCleanKlasse s.data).dropLast ++ [c] :=
            collapseZero_concat_of_one_le _ _ hlen1 (pyIsAlpha_not_digit halpha)
        _ = pyCleanKlasse s.data := ht.symm
    have hlw : lowerLast (pyCleanKlasse s.data) =
        (pyCleanKlasse s.data).dropLast ++ [pyToLower c] := by
      calc lowerLast (pyCleanKlasse s.data)
          = lowerLast ((pyCleanKlasse s.data).dropLast ++ [c]) := by rw [← ht]
        _ = (pyCleanKlasse s.data).dropLast ++ [pyToLower c] := by
            rw [lowerLast_concat, if_pos]
            constructor
            · rw [← ht]
              omega
            · exact halpha
    show String.mk (normKlasseL s.data) = _
    rw [normKlasseL_of_ne _ hne, hcz, hlw]

/-- Claim C7, amended, witness:  `" 0 7"` cleans to `['0','7']` and
normalizes to `"7"`; `" 10B "` cleans to a string of length 3 with
alphabetic last character and normalizes to `"10b"`. -/
theorem c7_amended_witness :
    normKlasse " 0 7" = "7" ∧ normKlasse " 10B " = "10b" := by
  constructor
  · exact c7_amended.2.1 " 0 7" '7' (by decide) (by decide)
  · have h := c7_amended.2.2.1 " 10B " 'B' (by decide) (by decide) (by decide)
    exact h

/-- Claim C10:  `_norm_klasse` is idempotent: normalizing twice equals
normalizing once, for every input string. -/
theorem c10_normKlasse_idempotent (s : String) :
    normKlasse (normKlasse s) = normKlasse s :=
  congrArg String.mk (normKlasseL_idem s.data)

/-! ## C8: full-name splitting fallback -/

/-- Claim C8, counterexample:  For the single-token full name `"Madonna"`
(structured fields absent), the claim requires family = first token =
`"Madonna"` and given = remainder = `""`; `_split_name` returns
given = `"Madonna"`, family = `""` — the opposite assignment. -/
theorem c8_counterexample :
    (pySplit ' ' "Madonna").length = 1 ∧
    splitName "" "" "Madonna" = ("Madonna", "") ∧
    splitName "" "" "Madonna" ≠ ("", "Madonna") := by
  refine ⟨by decide, by decide, by decide⟩

/-- Claim C8, amended:  When the structured name fields are absent and the
full name is non-empty: a full name of at least two space-separated
parts yields family = first part and given = the remaining parts joined
by spaces; a single-token full name yields given = the token and
family = empty. -/
theorem c8_amended : ∀ full : String, full ≠ "" →
    (2 ≤ (pySplit ' ' full).length →
      splitName "" "" full =
        (pyJoin ' ' ((pySplit ' ' full).drop 1), (pySplit ' ' full).headD "")) ∧
    ((pySplit ' ' full).length = 1 → splitName "" "" full = (full, "")) := by
  intro full hfull
  constructor
  · intro h2
    unfold splitName
    rw [if_pos ⟨rfl, rfl⟩, if_pos hfull, if_pos h2]
  · intro h1
    unfold splitName
    rw [if_pos ⟨rfl, rfl⟩, if_pos hfull, if_neg (by omega)]

/-- Claim C8, amended, witness:  A three-token and a one-token full name. -/
theorem c8_amended_witness :
    splitName "" "" "Max Peter Muster" = ("Peter Muster", "Max") ∧
    splitName "" "" "Madonna" = ("Madonna", "") := by
  constructor
  · have h := (c8_amended "Max Peter Muster" (by decide)).1 (by decide)
    exact h.trans (by decide)
  · exact (c8_amended "Madonna" (by decide)).2 (by decide)

/-! ## C9: salutation from reference -/

/-- Claim C9, counterexample:  On the input `"ID-2409843 "` (trailing
space) the second dash-separated segment of the input is `"2409843 "`,
whose last character is a space — not `'3'` or `'4'` — so the claim
requires the empty salutation; `_anrede_from_reference` strips the
reference before splitting and returns `"Herr"`. -/
theorem c9_counterexample :
    (pySplit '-' "ID-2409843 ").getD 1 "" = "2409843 " ∧
    ("2409843 " : String).data.getLast? = some ' ' ∧
    anredeFromReference "ID-2409843 " = "Herr" := by
  refine ⟨by decide, by decide, by decide⟩

/-- Claim C9, amended:  For every input string, with the dash-splitting
performed on the whitespace-stripped input: if there are at least two
segments, a second segment ending in `'3'` gives `"Herr"`, ending in
`'4'` gives `"Frau"`, any other ending (or an empty second segment)
gives `""`; fewer than two segments give `""`.  The function is total
(never raises). -/
theorem c9_amended : ∀ ref : String,
    (∀ p0 middle rest, pySplitL '-' (pyStripL ref.data) = p0 :: middle :: rest →
      ((middle.getLast? = some '3' → anredeFromReference ref = "Herr") ∧
       (middle.getLast? = some '4' → anredeFromReference ref = "Frau") ∧
       (∀ c, middle.getLast? = some c → c ≠ '3' → c ≠ '4' →
         anredeFromReference ref = "") ∧
       (middle.getLast? = none → anredeFromReference ref = ""))) ∧
    ((pySplitL '-' (pyStripL ref.data)).length < 2 → anredeFromReference ref = "") := by
  intro ref
  by_cases href : ref = ""
  · subst href
    constructor
    · intro p0 middle rest h
      rw [show pySplitL '-' (pyStripL ("" : String).data) = [[]] from rfl] at h
      cases h
    · intro _
      rfl
  · have hdef : anredeFromReference ref =
        match pySplitL '-' (pyStripL ref.data) with
        | _ :: middle :: _ =>
          match middle.getLast? with
          | some c => if c = '3' ∨ c = '4' then (if c = '3' then "Herr" else "Frau") else ""
          | none => ""
        | _ => "" := by
      unfold anredeFromReference
      rw [if_neg href]
    rcases hp : pySplitL '-' (pyStripL ref.data) with _ | ⟨p0, _ | ⟨middle, rest⟩⟩
    · rw [hp] at hdef
      refine ⟨?_, fun _ => hdef⟩
      intro p0 middle rest h
      cases h
    · rw [hp] at hdef
      refine ⟨?_, fun _ => hdef⟩
      intro p0' middle' rest' h
      cases h
    · rw [hp] at hdef
      have hdef2 : anredeFromReference ref =
          (match middle.getLast? with
           | some c => if c = '3' ∨ c = '4' then (if c = '3' then "Herr" else "Frau") else ""
           | none => "") := hdef
      constructor
      · intro p0' middle' rest' h
        injection h with h1 h2
        injection h2 with h3 h4
        subst h3
        refine ⟨?_, ?_, ?_, ?_⟩
        · intro hml
          rw [hml] at hdef2
          exact hdef2.trans (by decide)
        · intro hml
          rw [hml] at hdef2
          exact hdef2.trans (by decide)
        · intro c hml hc3 hc4
          rw [hml] at hdef2
          have hdef3 : anredeFromReference ref =
              (if c = '3' ∨ c = '4' then (if c = '3' then "Herr" else "Frau") else "") := hdef2
          rw [if_neg (fun hor => hor.elim (fun h => hc3 h) (fun h => hc4 h))] at hdef3
          exact hdef3
        · intro hml
          rw [hml] at hdef2
          exact hdef2
      · intro hlt
        simp at hlt
        omega

/-- Claim C9, amended, witness:  A male, a female and a no-match
reference. -/
theorem c9_amended_witness :
    anredeFromReference "ID-2409843-0075X" = "Herr" ∧
    anredeFromReference "ID-2409844" = "Frau" ∧
    anredeFromReference "justone" = "" := by
  refine ⟨?_, ?_, ?_⟩
  · exact (((c9_amended "ID-2409843-0075X").1
      ("ID".data) ("2409843".data) ["0075X".data] (by decide)).1) (by decide)
  · exact (((c9_amended "ID-2409844").1
      ("ID".data) ("2409844".data) [] (by decide)).2.1) (by decide)
  · exact (c9_amended "justone").2 (by decide)

/-! ## C4: membership class map -/

/-- The inner member loop writes the class for every non-empty member id
of the record and leaves every other key of the dict unchanged. -/
theorem memberFold_lookup (members : List String) (a : String → Option String)
    (kl pid : String) (hpid : pid ≠ "") :
    (members.foldl
      (fun a pid' =>
        if pid' ≠ "" then (fun q => if q = pid' then some kl else a q) else a)
      a) pid
      = if pid ∈ members then some kl else a pid := by
  induction members generalizing a with
  | nil => simp
  | cons c t ih =>
    rw [List.foldl_cons, ih]
    by_cases hc : c ≠ ""
    · rw [if_pos hc]
      by_cases hm : pid ∈ t
      · rw [if_pos hm, if_pos (List.mem_cons_of_mem c hm)]
      · rw [if_neg hm]
        by_cases hq : pid = c
        · rw [if_pos hq, if_pos (by rw [hq]; exact List.mem_cons_self c t)]
        · rw [if_neg hq, if_neg (by
            intro hmem
            rcases List.mem_cons.mp hmem with h | h
            · exact hq h
            · exact hm h)]
    · rw [if_neg hc]
      push_neg at hc
      by_cases hm : pid ∈ t
      · rw [if_pos hm, if_pos (List.mem_cons_of_mem c hm)]
      · rw [if_neg hm, if_neg (by
          intro hmem
          rcases List.mem_cons.mp hmem with h | h
          · exact hpid (h.trans hc)
          · exact hm h)]

/-- A record that does not (non-trivially) contain `pid` leaves the
`pid` entry unchanged. -/
theorem membershipStep_skip (acc : String → Option String) (m : Membership)
    (pid : String) (hpid : pid ≠ "")
    (h : ¬ (classOfMembership m ≠ "" ∧ pid ∈ m.members)) :
    (membershipStep acc m) pid = acc pid := by
  unfold membershipStep
  by_cases hkl : classOfMembership m = ""
  · rw [if_pos hkl]
  · rw [if_neg hkl, memberFold_lookup m.members acc _ pid hpid, if_neg]
    intro hm
    exact h ⟨hkl, hm⟩

/-- A record with non-empty class containing `pid` sets the `pid` entry
to its class. -/
theorem membershipStep_write (acc : String → Option String) (m : Membership)
    (pid : String) (hpid : pid ≠ "")
    (hkl : classOfMembership m ≠ "") (hm : pid ∈ m.members) :
    (membershipStep acc m) pid = some (classOfMembership m) := by
  unfold membershipStep
  rw [if_neg hkl, memberFold_lookup m.members acc _ pid hpid, if_pos hm]

theorem foldl_membershipStep (ms : List Membership) (acc : String → Option String)
    (pid : String) (hpid : pid ≠ "") :
    (ms.foldl membershipStep acc) pid =
      match (ms.filter
          (fun m => decide (classOfMembership m ≠ "" ∧ pid ∈ m.members))).getLast? with
      | some m => some (classOfMembership m)
      | none => acc pid := by
  induction ms generalizing acc with
  | nil => rfl
  | cons m t ih =>
    rw [List.foldl_cons, ih (membershipStep acc m), List.filter_cons]
    by_cases hm : classOfMembership m ≠ "" ∧ pid ∈ m.members
    · rw [if_pos (by exact decide_eq_true hm)]
      cases hft : (t.filter
          (fun m => decide (classOfMembership m ≠ "" ∧ pid ∈ m.members))).getLast? with
      | some m' =>
        have hne : t.filter
            (fun m => decide (classOfMembership m ≠ "" ∧ pid ∈ m.members)) ≠ [] := by
          intro h0
          rw [h0] at hft
          cases hft
        cases hf : t.filter
            (fun m => decide (classOfMembership m ≠ "" ∧ pid ∈ m.members)) with
        | nil => exact absurd hf hne
        | cons x xs =>
          rw [hf] at hft
          rw [List.getLast?_cons_cons, hft]
      | none =>
        have hf0 : t.filter
            (fun m => decide (classOfMembership m ≠ "" ∧ pid ∈ m.members)) = [] :=
          List.getLast?_eq_none_iff.mp hft
        rw [hf0]
        show (membershipStep acc m) pid = some (classOfMembership m)
        exact membershipStep_write acc m pid hpid hm.1 hm.2
    · rw [if_neg (by
        intro hd
        exact hm (of_decide_eq_true hd))]
      cases hft : (t.filter
          (fun m => decide (classOfMembership m ≠ "" ∧ pid ∈ m.members))).getLast? with
      | some m' => rfl
      | none =>
        show (membershipStep acc m) pid = acc pid
        exact membershipStep_skip acc m pid hpid hm

/-- Claim C4:  The membership resolver: for every non-empty identifier,
the lookup equals the class of the *last* membership record whose
derived class code is non-empty and whose member list contains the
identifier — records with empty derived class are skipped entirely, a
later membership overwrites an earlier one, and the construction never
consults person records, so the lookup is independent of their order. -/
theorem c4_membership_map (ms : List Membership) (pid : String) (hpid : pid ≠ "") :
    buildMembershipClassMap ms pid =
      ((ms.filter
        (fun m => decide (classOfMembership m ≠ "" ∧ pid ∈ m.members))).getLast?).map
        classOfMembership := by
  rw [buildMembershipClassMap, foldl_membershipStep ms _ pid hpid]
  cases (ms.filter
      (fun m => decide (classOfMembership m ≠ "" ∧ pid ∈ m.members))).getLast? with
  | some m => rfl
  | none => rfl

/-- Claim C4, witness:  `p2` is in two class memberships: the later one
(`8b`) wins; the record without a class pattern contributes nothing. -/
theorem c4_witness :
    buildMembershipClassMap
      [⟨"klasse-07A", ["p1", "p2"]⟩, ⟨"klasse-8b", ["p2"]⟩, ⟨"nogroup", ["p2"]⟩]
      "p2" = some "8b" := by
  have h := c4_membership_map
    [⟨"klasse-07A", ["p1", "p2"]⟩, ⟨"klasse-8b", ["p2"]⟩, ⟨"nogroup", ["p2"]⟩]
    "p2" (by decide)
  exact h.trans (by decide)

/-! ## C3: nameless entries in the extraction pipeline -/

/-- Claim C3, counterexample:  A person with role tag `teacher` and every
name field empty contributes neither a given nor a family name, yet
`convert` appends it to the teacher rows — the claim requires it to
appear in neither output sequence. -/
theorem c3_counterexample :
    splitName "" "" "" = ("", "") ∧
    convertRows [] [⟨"", "", "", "", "", ["teacher"]⟩] = ([], [⟨"", "", "", ""⟩]) ∧
    (convertRows [] [⟨"", "", "", "", "", ["teacher"]⟩]).2 ≠ [] := by
  refine ⟨by decide, by decide, by decide⟩

theorem convertFold_students (lookup : String → Option String) (ps : List Person) :
    ∀ acc : List StudentRow × List TeacherRow,
      (∀ row ∈ acc.1, row.vorname ≠ "" ∨ row.nachname ≠ "") →
      ∀ row ∈ (ps.foldl (convertStep lookup) acc).1,
        row.vorname ≠ "" ∨ row.nachname ≠ "" := by
  induction ps with
  | nil => exact fun acc hacc row hrow => hacc row hrow
  | cons p t ih =>
    intro acc hacc row hrow
    rw [List.foldl_cons] at hrow
    refine ih (convertStep lookup acc p) ?_ row hrow
    intro r hr
    unfold convertStep at hr
    by_cases hst : isStudent p = true
    · rw [if_pos hst] at hr
      by_cases hvn : (splitName p.given p.family p.fn).1 ≠ "" ∨
          (splitName p.given p.family p.fn).2 ≠ ""
      · rw [if_pos hvn] at hr
        rcases List.mem_append.mp hr with h | h
        · exact hacc r h
        · simp only [List.mem_singleton] at h
          subst h
          exact hvn
      · rw [if_neg hvn] at hr
        exact hacc r hr
    · rw [if_neg hst] at hr
      by_cases htl : isTeacherLike p = true
      · rw [if_pos htl] at hr
        exact hacc r hr
      · rw [if_neg htl] at hr
        exact hacc r hr

theorem convertFold_teachers (lookup : String → Option String) (ps : List Person) :
    ∀ acc : List StudentRow × List TeacherRow,
      (ps.foldl (convertStep lookup) acc).2 =
        acc.2 ++ (ps.filter (fun p => !isStudent p && isTeacherLike p)).map teacherRowOf := by
  induction ps with
  | nil => intro acc; simp
  | cons p t ih =>
    intro acc
    rw [List.foldl_cons, ih (convertStep lookup acc p), List.filter_cons]
    by_cases hst : isStudent p = true
    · have hcond : (!isStudent p && isTeacherLike p) = false := by
        rw [hst]
        simp
      have h2 : (convertStep lookup acc p).2 = acc.2 := by
        unfold convertStep
        rw [if_pos hst]
        by_cases hvn : (splitName p.given p.family p.fn).1 ≠ "" ∨
            (splitName p.given p.family p.fn).2 ≠ ""
        · rw [if_pos hvn]
        · rw [if_neg hvn]
      simp only [hcond, Bool.false_eq_true, if_false]
      rw [h2]
    · have hsf : isStudent p = false := by
        cases h : isStudent p
        · rfl
        · exact absurd h hst
      by_cases htl : isTeacherLike p = true
      · have hcond : (!isStudent p && isTeacherLike p) = true := by
          rw [hsf, htl]
          rfl
        have h2 : (convertStep lookup acc p).2 = acc.2 ++ [teacherRowOf p] := by
          unfold convertStep
          rw [if_neg hst, if_pos htl]
        simp only [hcond, if_true]
        rw [h2, List.map_cons, List.append_assoc, List.singleton_append]
      · have htf : isTeacherLike p = false := by
          cases h : isTeacherLike p
          · rfl
          · exact absurd h htl
        have hcond : (!isStudent p && isTeacherLike p) = false := by
          rw [htf]
          simp
        have h2 : (convertStep lookup acc p).2 = acc.2 := by
          unfold convertStep
          rw [if_neg hst, if_neg htl]
        simp only [hcond, Bool.false_eq_true, if_false]
        rw [h2]

/-- Claim C3, amended:  An entry contributing neither a given nor a family
name is dropped from the *student* output only; the teacher output keeps
every teacher-like (non-student) entry, names or not: it equals exactly
the teacher rows of the teacher-like persons in input order. -/
theorem c3_amended :
    (∀ (ms : List Membership) (ps : List Person) (row : StudentRow),
      row ∈ (convertRows ms ps).1 → row.vorname ≠ "" ∨ row.nachname ≠ "") ∧
    (∀ (ms : List Membership) (ps : List Person),
      (convertRows ms ps).2 =
        (ps.filter (fun p => !isStudent p && isTeacherLike p)).map teacherRowOf) := by
  constructor
  · intro ms ps row hrow
    exact convertFold_students (buildMembershipClassMap ms) ps ([], [])
      (fun r hr => absurd hr (List.not_mem_nil r)) row hrow
  · intro ms ps
    have h := convertFold_teachers (buildMembershipClassMap ms) ps ([], [])
    simpa using h

/-- Claim C3, amended, witness:  A named student row satisfies the student
clause; a nameless teacher-like person is kept in the teacher output. -/
theorem c3_amended_witness :
    ((⟨"Anna", "Muster", "", "R1"⟩ : StudentRow).vorname ≠ "" ∨
      (⟨"Anna", "Muster", "", "R1"⟩ : StudentRow).nachname ≠ "") ∧
    (convertRows [] [⟨"", "", "", "", "", ["teacher"]⟩]).2 =
      ([(⟨"", "", "", "", "", ["teacher"]⟩ : Person)].filter
        (fun p => !isStudent p && isTeacherLike p)).map teacherRowOf := by
  constructor
  · exact c3_amended.1 [] [⟨"Anna", "Muster", "", "", "R1", ["student"]⟩] _ (by decide)
  · exact c3_amended.2 [] [⟨"", "", "", "", "", ["teacher"]⟩]

/-! ## C1: the greeting line -/

/-- Claim C1, counterexample:  A record with the non-empty salutation
`"Herr"`: the claim requires the greeting `"Herr Max Muster,"`, but a
non-empty salutation switches the audience flag to teacher, and the
teacher branch emits the generic `"Hallo Max Muster,"`; the
salutation-greeting branch is unreachable.  The generated story contains
the generic greeting paragraph and not the salutation one. -/
theorem c1_counterexample :
    buildGreet "1" "Herr" "Max" "Muster" = "Hallo Max Muster," ∧
    buildGreet "1" "Herr" "Max" "Muster" ≠ "Herr Max Muster," ∧
    Flowable.para "<font size=14>Hallo Max Muster,</font>" "Justify"
      ∈ buildAntonStory (fun _ _ => 0) true (25 * mmQ) "1" ""
          ⟨"Herr", "Max", "Muster", "", "", ""⟩ ∧
    Flowable.para "<font size=14>Herr Max Muster,</font>" "Justify"
      ∉ buildAntonStory (fun _ _ => 0) true (25 * mmQ) "1" ""
          ⟨"Herr", "Max", "Muster", "", "", ""⟩ := by
  refine ⟨by decide, by decide, by decide, by decide⟩

/-- Claim C1, amended:  The greeting is *always* the generic
`"Hallo <name>,"`, whatever the salutation and the audience setting: a
non-empty salutation selects the teacher branch, whose greeting is the
generic one, and the branch that would prepend the salutation is
unreachable.  The per-person story always carries this greeting
paragraph. -/
theorem c1_amended :
    (∀ schoolgroup anrede firstname lastname : String,
      buildGreet schoolgroup anrede firstname lastname =
        "Hallo " ++ pyStrip (pyStrip (firstGivenOf firstname ++ " " ++ lastname)) ++ ",") ∧
    (∀ (w : String → ℕ → ℚ) (logoOk : Bool) (logoW : ℚ) (sg al : String) (r : AntonRow),
      Flowable.para ("<font size=14>" ++
          buildGreet sg (pyStrip r.anrede) (pyStrip r.vorname) (pyStrip r.nachname) ++
          "</font>") "Justify"
        ∈ buildAntonStory w logoOk logoW sg al r) := by
  constructor
  · intro schoolgroup anrede firstname lastname
    show (if (pyStrip schoolgroup = "2") ∨ anrede ≠ "" then
      "Hallo " ++ pyStrip (pyStrip (firstGivenOf firstname ++ " " ++ lastname)) ++ ","
    else if anrede ≠ "" then
      anrede ++ " " ++ pyStrip (pyStrip (firstGivenOf firstname ++ " " ++ lastname)) ++ ","
    else "Hallo " ++ pyStrip (pyStrip (firstGivenOf firstname ++ " " ++ lastname)) ++ ",") = _
    by_cases ha : anrede ≠ ""
    · rw [if_pos (Or.inr ha)]
    · by_cases hg : pyStrip schoolgroup = "2"
      · rw [if_pos (Or.inl hg)]
      · rw [if_neg (fun hor => hor.elim hg ha), if_neg ha]
  · intro w logoOk logoW sg al r
    cases logoOk <;> simp [buildAntonStory]

/-! ## C2: the secondary positional fallback of the CSV loader -/

/-- Claim C2, counterexample:  Header `["Referenz"]` binds a field by
name, so positional fallback mode is *off* — yet on the row `["R1"]`,
whose name-bound `Vorname` is empty, the loader substitutes column 0 and
keeps the row with `Vorname = "R1"`.  Under the claim (substitution only
in positional fallback mode) the row would have no name and be
dropped. -/
theorem c2_counterexample :
    assumeFlag ["Referenz"] = false ∧
    getCol ["R1"] (idxOf ["Referenz"] "vorname") = "" ∧
    readAntonRows ["Referenz"] [["R1"]] = [⟨"", "R1", "", "", "R1", ""⟩] := by
  refine ⟨by decide, by decide, by decide⟩

/-- Claim C2, amended:  The secondary fallback substituting columns 0/1
for an empty given/family value is applied exactly in *name-bound* mode
(the branch taken when `assume` is false); in positional fallback mode
the record is read positionally in the first place.  Mode selection:
a kept row's record is the positional record when `assume` holds and the
name-bound record otherwise. -/
theorem c2_amended :
    (∀ (header row : List String),
      getCol row (idxOf header "vorname") = "" → 0 < row.length →
      (rowRecordNamed header row).vorname = pyStrip (row.getD 0 "")) ∧
    (∀ (header row : List String),
      getCol row (idxOf header "nachname") = "" → 1 < row.length →
      (rowRecordNamed header row).nachname = pyStrip (row.getD 1 "")) ∧
    (∀ (header row : List String),
      getCol row (idxOf header "vorname") ≠ "" →
      (rowRecordNamed header row).vorname = getCol row (idxOf header "vorname")) ∧
    (∀ (header row : List String) (rcd : AntonRow),
      rowRecord header row = some rcd →
      (assumeFlag header = true → rcd = rowRecordPositional row) ∧
      (assumeFlag header = false → rcd = rowRecordNamed header row)) := by
  refine ⟨?_, ?_, ?_, ?_⟩
  · intro header row h0 hlen
    show (if getCol row (idxOf header "vorname") = "" ∧ 0 < row.length
        then pyStrip (row.getD 0 "") else getCol row (idxOf header "vorname")) = _
    rw [if_pos ⟨h0, hlen⟩]
  · intro header row h0 hlen
    show (if getCol row (idxOf header "nachname") = "" ∧ 1 < row.length
        then pyStrip (row.getD 1 "") else getCol row (idxOf header "nachname")) = _
    rw [if_pos ⟨h0, hlen⟩]
  · intro header row h0
    show (if getCol row (idxOf header "vorname") = "" ∧ 0 < row.length
        then pyStrip (row.getD 0 "") else getCol row (idxOf header "vorname")) = _
    rw [if_neg (fun hc => h0 hc.1)]
  · intro header row rcd h
    unfold rowRecord at h
    by_cases hr0 : row = []
    · rw [if_pos hr0] at h
      cases h
    · rw [if_neg hr0] at h
      constructor
      · intro hma
        rw [hma] at h
        simp only [if_true] at h
        by_cases hkeep : (rowRecordPositional row).vorname ≠ "" ∨
            (rowRecordPositional row).nachname ≠ ""
        · rw [if_pos hkeep] at h
          cases h
          rfl
        · rw [if_neg hkeep] at h
          cases h
      · intro hma
        rw [hma] at h
        simp only [Bool.false_eq_true, if_false] at h
        by_cases hkeep : (rowRecordNamed header row).vorname ≠ "" ∨
            (rowRecordNamed header row).nachname ≠ ""
        · rw [if_pos hkeep] at h
          cases h
          rfl
        · rw [if_neg hkeep] at h
          cases h

/-- Claim C2, amended, witness:  A name-bound header with an empty bound
value substitutes column 0; a header binding nothing selects the
positional record. -/
theorem c2_amended_witness :
    (rowRecordNamed ["Referenz"] ["R1"]).vorname = pyStrip (["R1"].getD 0 "") ∧
    ((⟨"", "Ann", "Mu", "", "", ""⟩ : AntonRow) = rowRecordPositional ["Ann", "Mu"]) := by
  constructor
  · exact c2_amended.1 ["Referenz"] ["R1"] (by decide) (by decide)
  · exact ((c2_amended.2.2.2 ["x", "y"] ["Ann", "Mu"] ⟨"", "Ann", "Mu", "", "", ""⟩
      (by decide)).1) (by decide)

/-! ## C6: the sticker code-font fitter -/

/-- Behaviour of `find?` on a weakly descending list: a hit satisfies the predicate,
belongs to the list, and is at least as large as any member that
satisfies the predicate. -/
theorem find?_desc_spec (p : ℕ → Bool) :
    ∀ l : List ℕ, List.Pairwise (fun a b => b ≤ a) l →
      ∀ r, l.find? p = some r → p r = true ∧ r ∈ l ∧ ∀ x ∈ l, p x = true → x ≤ r := by
  intro l
  induction l with
  | nil =>
    intro _ r h
    simp at h
  | cons a t ih =>
    intro hpw r h
    by_cases hpa : p a = true
    · rw [List.find?_cons_of_pos t hpa] at h
      cases h
      refine ⟨hpa, List.mem_cons_self a t, ?_⟩
      intro x hx _
      rcases List.mem_cons.mp hx with hxa | hxt
      · subst hxa
        exact le_refl x
      · exact (List.pairwise_cons.mp hpw).1 x hxt
    · rw [List.find?_cons_of_neg t hpa] at h
      obtain ⟨hp, hmem, hmax⟩ := ih (List.pairwise_cons.mp hpw).2 r h
      refine ⟨hp, List.mem_cons_of_mem a hmem, ?_⟩
      intro x hx hpx
      rcases List.mem_cons.mp hx with hxa | hxt
      · subst hxa
        exact absurd hpx hpa
      · exact hmax x hxt hpx

/-- Claim C6:  The fitter returns a member of the fixed descending
candidate list; when some candidate's measured width fits the available
column, the returned candidate fits and is the largest fitting one; when
no candidate fits, it returns the smallest candidate 8 (it is a total
function — never an error); and for empty code and name strings the
sticker's fitted size is the largest candidate 28, whenever the metric
gives the empty string width 0 and one space (the blank the code
substitutes for an empty name line) plus the padding fits. -/
theorem c6_codeFontThatFits (w : String → ℕ → ℚ) (avail : ℚ) (code line1 line2 : String) :
    codeFontThatFits w avail code line1 line2 ∈ candidateSizes ∧
    (∀ fs ∈ candidateSizes, fitMeasure w code line1 line2 fs ≤ avail →
      fitMeasure w code line1 line2 (codeFontThatFits w avail code line1 line2) ≤ avail ∧
      fs ≤ codeFontThatFits w avail code line1 line2) ∧
    ((∀ fs ∈ candidateSizes, ¬ fitMeasure w code line1 line2 fs ≤ avail) →
      codeFontThatFits w avail code line1 line2 = 8) ∧
    (∀ logoW : ℚ, w "" 28 = 0 → 0 ≤ w " " 8 →
      w " " 8 + 12 ≤ 100 * mmQ - logoW - 30 * mmQ →
      stickerCodeFont (stickerOf w logoW "" "" "") = 28) := by
  have hpw : List.Pairwise (fun a b => b ≤ a) candidateSizes := by decide
  refine ⟨?_, ?_, ?_, ?_⟩
  · unfold codeFontThatFits
    cases hf : candidateSizes.find?
        (fun fs => fitMeasure w code line1 line2 fs ≤ avail) with
    | some fs => exact List.mem_of_find?_eq_some hf
    | none => decide
  · intro fs hfs hfit
    cases hf : candidateSizes.find?
        (fun fs => fitMeasure w code line1 line2 fs ≤ avail) with
    | some r =>
      obtain ⟨hp, _, hmax⟩ := find?_desc_spec _ candidateSizes hpw r hf
      have hr : codeFontThatFits w avail code line1 line2 = r := by
        unfold codeFontThatFits
        rw [hf]
      rw [hr]
      exact ⟨of_decide_eq_true hp, hmax fs hfs (decide_eq_true hfit)⟩
    | none =>
      exact absurd (decide_eq_true hfit) (List.find?_eq_none.mp hf fs hfs)
  · intro hall
    have hf : candidateSizes.find?
        (fun fs => fitMeasure w code line1 line2 fs ≤ avail) = none :=
      List.find?_eq_none.mpr (fun x hx hdec => hall x hx (of_decide_eq_true hdec))
    unfold codeFontThatFits
    rw [hf]
  · intro logoW h0 hnn hle
    show codeFontThatFits w (100 * mmQ - logoW - 30 * mmQ) "" " " " " = 28
    have hfit : fitMeasure w "" " " " " 28 ≤ 100 * mmQ - logoW - 30 * mmQ := by
      unfold fitMeasure
      rw [h0, max_self, max_eq_right hnn]
      calc w " " 8 + 2 * 6 = w " " 8 + 12 := by norm_num
        _ ≤ _ := hle
    unfold codeFontThatFits
    rw [show candidateSizes = 28 :: [26, 24, 22, 20, 18, 16, 14, 12, 10, 9, 8] from rfl,
      @List.find?_cons_of_pos ℕ
        (fun fs => decide (fitMeasure w "" " " " " fs ≤ 100 * mmQ - logoW - 30 * mmQ)) 28
        [26, 24, 22, 20, 18, 16, 14, 12, 10, 9, 8] (decide_eq_true hfit)]

/-- Claim C6, witness:  With the per-character metric
`w s n = s.length * n` every hypothesis holds concretely and the sticker
for empty inputs is fitted at size 28. -/
theorem c6_witness :
    stickerCodeFont (stickerOf (fun s n => (s.length : ℚ) * n) 0 "" "" "") = 28 := by
  refine (c6_codeFontThatFits (fun s n => (s.length : ℚ) * n) 0 "" " " " ").2.2.2 0 ?_ ?_ ?_
  · norm_num
  · norm_num
  · show ((" " : String).length : ℚ) * 8 + 12 ≤ 100 * mmQ - 0 - 30 * mmQ
    rw [show (" " : String).length = 1 from rfl]
    norm_num [mmQ]

/-! ## C5: grouped-mode pagination -/

theorem buildAntonStory_no_breaks (w : String → ℕ → ℚ) (logoOk : Bool) (logoW : ℚ)
    (sg al : String) (r : AntonRow) :
    countBreaks (buildAntonStory w logoOk logoW sg al r) = 0 := by
  by_cases hT : pyStrip sg = "2" ∨ ¬ pyStrip r.anrede = "" <;>
    by_cases hC : ¬ pyStrip r.code = "" <;>
      cases logoOk <;>
        simp [buildAntonStory, countBreaks, hT, hC, isPageBreak, stickerOf,
          List.countP_append, List.countP_cons]

theorem buildAntonStory_getLast (w : String → ℕ → ℚ) (logoOk : Bool) (logoW : ℚ)
    (sg al : String) (r : AntonRow) :
    (buildAntonStory w logoOk logoW sg al r).getLast? =
      some (stickerOf w logoW (pyStrip r.vorname) (pyStrip r.nachname) (pyStrip r.code)) := by
  by_cases hT : pyStrip sg = "2" ∨ ¬ pyStrip r.anrede = "" <;>
    by_cases hC : ¬ pyStrip r.code = "" <;>
      cases logoOk <;>
        simp [buildAntonStory, hT, hC, List.getLast?_append]

/-- The story of a non-empty group is non-empty, contains exactly
`n - 1` page breaks, and does not end in a page break. -/
theorem groupStory_spec (w : String → ℕ → ℚ) (logoOk : Bool) (logoW : ℚ)
    (sg al : String) :
    ∀ people : List AntonRow, people ≠ [] →
      groupStory w logoOk logoW sg al people ≠ [] ∧
      countBreaks (groupStory w logoOk logoW sg al people) = people.length - 1 ∧
      (groupStory w logoOk logoW sg al people).getLast? ≠ some Flowable.pageBreak := by
  intro people
  induction people with
  | nil => intro h; exact absurd rfl h
  | cons r rest ih =>
    intro _
    cases rest with
    | nil =>
      refine ⟨?_, ?_, ?_⟩
      · show buildAntonStory w logoOk logoW sg al r ≠ []
        intro h0
        have hgl := buildAntonStory_getLast w logoOk logoW sg al r
        rw [h0] at hgl
        simp at hgl
      · exact buildAntonStory_no_breaks w logoOk logoW sg al r
      · show (buildAntonStory w logoOk logoW sg al r).getLast? ≠ some Flowable.pageBreak
        rw [buildAntonStory_getLast]
        intro h
        simp [stickerOf] at h
    | cons r2 rest2 =>
      obtain ⟨hne, hcount, hlast⟩ := ih (by simp)
      have hexp : groupStory w logoOk logoW sg al (r :: r2 :: rest2) =
          buildAntonStory w logoOk logoW sg al r ++ [Flowable.pageBreak]
            ++ groupStory w logoOk logoW sg al (r2 :: rest2) := rfl
      refine ⟨?_, ?_, ?_⟩
      · rw [hexp]
        simp
      · rw [hexp]
        unfold countBreaks
        rw [List.countP_append, List.countP_append]
        have hA := buildAntonStory_no_breaks w logoOk logoW sg al r
        unfold countBreaks at hA hcount
        rw [hA, hcount]
        simp [isPageBreak]
        omega
      · rw [hexp, List.getLast?_append]
        have hy := List.getLast?_eq_getLast _ hne
        rw [hy]
        rw [hy] at hlast
        simpa using hlast

theorem groupInsert_vals_nonempty :
    ∀ (acc : List (String × List AntonRow)) (k : String) (r : AntonRow),
      (∀ p ∈ acc, p.2 ≠ []) → ∀ p ∈ groupInsert acc k r, p.2 ≠ [] := by
  intro acc
  induction acc with
  | nil =>
    intro k r _ p hp
    simp only [groupInsert, List.mem_singleton] at hp
    subst hp
    simp
  | cons hd t ih =>
    obtain ⟨k', rs⟩ := hd
    intro k r hacc p hp
    unfold groupInsert at hp
    by_cases hk : k' = k
    · rw [if_pos hk] at hp
      rcases List.mem_cons.mp hp with h | h
      · subst h
        simp
      · exact hacc p (List.mem_cons_of_mem _ h)
    · rw [if_neg hk] at hp
      rcases List.mem_cons.mp hp with h | h
      · subst h
        exact hacc (k', rs) (List.mem_cons_self _ _)
      · exact ih k r (fun q hq => hacc q (List.mem_cons_of_mem _ hq)) p h

theorem groupRows_vals_nonempty (gs : String) (rows : List AntonRow) :
    ∀ p ∈ groupRows gs rows, p.2 ≠ [] := by
  have aux : ∀ (rs : List AntonRow) (acc : List (String × List AntonRow)),
      (∀ p ∈ acc, p.2 ≠ []) →
      ∀ p ∈ rs.foldl (fun acc r => groupInsert acc (groupKey gs r) r) acc, p.2 ≠ [] := by
    intro rs
    induction rs with
    | nil => exact fun acc hacc => hacc
    | cons r t ih =>
      intro acc hacc
      exact ih (groupInsert acc (groupKey gs r) r)
        (groupInsert_vals_nonempty acc (groupKey gs r) r hacc)
  exact aux rows [] (fun p hp => absurd hp (List.not_mem_nil p))

/-- Claim C5:  In grouped mode every group holds `n ≥ 1` people, its
document story contains exactly `n - 1` page breaks and does not end in
a page break; and the concrete scenario of 3 students in class `7a` plus
2 teachers without a class yields exactly the two documents
(`7a` with 2 internal breaks, the teacher bucket with 1). -/
theorem c5_grouped_documents :
    (∀ (w : String → ℕ → ℚ) (logoOk : Bool) (logoW : ℚ) (sg al gs : String)
        (rows : List AntonRow) (g : String × List AntonRow),
      g ∈ groupRows gs rows →
        1 ≤ g.2.length ∧
        countBreaks (groupStory w logoOk logoW sg al g.2) = g.2.length - 1 ∧
        (groupStory w logoOk logoW sg al g.2).getLast? ≠ some Flowable.pageBreak) ∧
    (generateGrouped (fun _ _ => 0) true (25 * mmQ) "1" ""
        [⟨"", "A", "A1", "7a", "", ""⟩, ⟨"", "B", "B1", "7a", "", ""⟩,
         ⟨"", "C", "C1", "7a", "", ""⟩, ⟨"Herr", "T", "T1", "", "", ""⟩,
         ⟨"Frau", "U", "U1", "", "", ""⟩]).map
      (fun d => (d.1, countBreaks d.2)) = [("7a", 2), ("Lehrkräfte", 1)] := by
  constructor
  · intro w logoOk logoW sg al gs rows g hg
    have hne : g.2 ≠ [] := groupRows_vals_nonempty gs rows g hg
    obtain ⟨_, hcount, hlast⟩ := groupStory_spec w logoOk logoW sg al g.2 hne
    exact ⟨List.length_pos.mpr hne, hcount, hlast⟩
  · decide

/-- Claim C5, witness:  The `7a` group of the concrete scenario: its story
has `3 - 1` page breaks. -/
theorem c5_witness :
    countBreaks (groupStory (fun _ _ => 0) true (25 * mmQ) "1" ""
        [⟨"", "A", "A1", "7a", "", ""⟩, ⟨"", "B", "B1", "7a", "", ""⟩,
         ⟨"", "C", "C1", "7a", "", ""⟩]) =
      ([⟨"", "A", "A1", "7a", "", ""⟩, ⟨"", "B", "B1", "7a", "", ""⟩,
        ⟨"", "C", "C1", "7a", "", ""⟩] : List AntonRow).length - 1 :=
  ((c5_grouped_documents.1 (fun _ _ => 0) true (25 * mmQ) "1" "" "1"
    [⟨"", "A", "A1", "7a", "", ""⟩, ⟨"", "B", "B1", "7a", "", ""⟩,
     ⟨"", "C", "C1", "7a", "", ""⟩, ⟨"Herr", "T", "T1", "", "", ""⟩,
     ⟨"Frau", "U", "U1", "", "", ""⟩]
    ("7a", [⟨"", "A", "A1", "7a", "", ""⟩, ⟨"", "B", "B1", "7a", "", ""⟩,
            ⟨"", "C", "C1", "7a", "", ""⟩]) (by decide)).2.1)

end AntonSpec
